import Mathlib

/-
  Verification development for the attendance-audio engine of this
  repository (source file: src/audio_handler.py).

  The engine is shallowly embedded: timestamps are exact integers, the Python
  dict of person records is an association list preserving insertion
  order, and the audio deque is a plain list (append at the tail,
  pop at the head).  Each Python method becomes a pure state-passing
  function; the wall clock is passed explicitly.
-/

namespace AttendanceAudio

/-- Configuration constants from audio_handler.py. -/
def AUDIO_COOLDOWN_GLOBAL : ℤ := 2

def AUDIO_COOLDOWN_PER_PERSON : ℤ := 5

def SESSION_TIMEOUT : ℤ := 300

def REAPPEAR_THRESHOLD : ℤ := 2

/-- The per-person state machine states (class PersonState). -/
inductive PersonState where
  | NEW
  | MARKING
  | MARKED
  | IGNORED
deriving DecidableEq

/-- One record per person (dataclass PersonRecord). -/
structure PersonRecord where
  person_id : String
  name : String
  state : PersonState
  last_audio_time : ℤ
  last_seen_time : ℤ
  audio_lock_until : ℤ
  has_triggered_ignored_audio : Bool
deriving DecidableEq

/-- The mutable state of class AudioHandler (threads and locks are not
data; the callback backend is modelled at the worker step). -/
structure AudioHandler where
  session_active : Bool
  global_cooldown_until : ℤ
  people : List (String × PersonRecord)
  audio_queue : List (String × ℤ)
deriving DecidableEq

/-- The state of a freshly constructed AudioHandler. -/
def initialHandler : AudioHandler :=
  { session_active := false
    global_cooldown_until := 0
    people := []
    audio_queue := [] }

/-- Dictionary lookup on the insertion-ordered association list. -/
def lookupP : List (String × PersonRecord) → String → Option PersonRecord
  | [], _ => none
  | kv :: rest, pid => if kv.1 = pid then some kv.2 else lookupP rest pid

/-- Dictionary write: replace in place if the key exists, else append
(Python dicts keep insertion order). -/
def setP : List (String × PersonRecord) → String → PersonRecord → List (String × PersonRecord)
  | [], pid, r => [(pid, r)]
  | kv :: rest, pid, r => if kv.1 = pid then (pid, r) :: rest else kv :: setP rest pid r

/-- One observation delivered to process_person: the arguments of the
call together with the value time.time() returned inside it. -/
structure Obs where
  pid : String
  name : String
  recognized : Bool
  marked : Bool
  now : ℤ
deriving DecidableEq

/-- The record _get_or_create_person builds when the id is absent. -/
def freshRecord (pid nm : String) (now : ℤ) : PersonRecord :=
  { person_id := pid
    name := nm
    state := PersonState.NEW
    last_audio_time := 0
    last_seen_time := now
    audio_lock_until := 0
    has_triggered_ignored_audio := false }

/-- _get_or_create_person: the record process_person works on. -/
def observedRecord (h : AudioHandler) (o : Obs) : PersonRecord :=
  match lookupP h.people o.pid with
  | some r => r
  | none => freshRecord o.pid o.name o.now

/-- The pure transition function of _apply_state_transitions: the new
value assigned to person.state. -/
def nextState (s : PersonState) (attendance_marked is_reappearance : Bool) : PersonState :=
  match s with
  | PersonState.NEW => PersonState.MARKING
  | PersonState.MARKING => if attendance_marked then PersonState.MARKED else PersonState.MARKING
  | PersonState.MARKED => if is_reappearance then PersonState.IGNORED else PersonState.MARKED
  | PersonState.IGNORED => PersonState.IGNORED

/-- _apply_state_transitions mutates only person.state. -/
def applyStateTransitions (r : PersonRecord) (attendance_marked is_reappearance : Bool) :
    PersonRecord :=
  { r with state := nextState r.state attendance_marked is_reappearance }

/-- The audio_messages table of _trigger_audio_for_transition, keyed by
(previous_state, new_state); the texts are the exact f-strings of the
source. -/
def transitionMessage (previous next : PersonState) (nm : String) : Option String :=
  if previous = PersonState.NEW ∧ next = PersonState.MARKING then
    some "Marking attendance"
  else if previous = PersonState.MARKING ∧ next = PersonState.MARKED then
    some ("Greetings " ++ nm)
  else if previous = PersonState.MARKED ∧ next = PersonState.IGNORED then
    some (nm ++ ", your attendance is already marked. Only once per session.")
  else none

/-- The text of the MARKED-to-IGNORED announcement for a given name. -/
def ignoredMessage (nm : String) : String :=
  nm ++ ", your attendance is already marked. Only once per session."

/-- _trigger_audio_for_transition: returns the updated record and the
text handed to _queue_audio, if any.  The once-per-session guard on the
IGNORED announcement returns early before the lock is set. -/
def triggerAudioForTransition (person : PersonRecord) (previous : PersonState) (now : ℤ) :
    PersonRecord × Option String :=
  match transitionMessage previous person.state person.name with
  | none => (person, none)
  | some text =>
    if person.state = PersonState.IGNORED then
      if person.has_triggered_ignored_audio then (person, none)
      else
        ({ person with
            has_triggered_ignored_audio := true
            audio_lock_until := now + AUDIO_COOLDOWN_PER_PERSON }, some text)
    else
      ({ person with audio_lock_until := now + AUDIO_COOLDOWN_PER_PERSON }, some text)

/-- The tail of process_person once the per-person lock gate has been
passed: apply the transitions, and if the state changed queue the audio
of the transition.  r1 already carries last_seen_time = now; reapp was
computed from the value before that update. -/
def stepUnlocked (h : AudioHandler) (o : Obs) (r1 : PersonRecord) (reapp : Bool) :
    AudioHandler × Option (String × ℤ) :=
  let r2 := applyStateTransitions r1 o.marked reapp
  if r2.state = r1.state then
    ({ h with people := setP h.people o.pid r2 }, none)
  else
    match triggerAudioForTransition r2 r1.state o.now with
    | (r3, none) => ({ h with people := setP h.people o.pid r3 }, none)
    | (r3, some text) =>
      ({ h with
          people := setP h.people o.pid r3
          audio_queue := h.audio_queue ++ [(text, o.now)] }, some (text, o.now))

/-- The body of process_person on an active session with a recognized
face: fetch or create the record, compute is_reappearance from the old
last_seen_time, update last_seen_time unconditionally, then stop at the
per-person lock or continue to the transition logic. -/
def stepActive (h : AudioHandler) (o : Obs) : AudioHandler × Option (String × ℤ) :=
  let r0 := observedRecord h o
  let reapp := decide (REAPPEAR_THRESHOLD < o.now - r0.last_seen_time)
  let r1 := { r0 with last_seen_time := o.now }
  if o.now < r1.audio_lock_until then
    ({ h with people := setP h.people o.pid r1 }, none)
  else
    stepUnlocked h o r1 reapp

/-- process_person, returning the new state and the item appended to
audio_queue by _queue_audio, if any. -/
def processPersonAux (h : AudioHandler) (o : Obs) : AudioHandler × Option (String × ℤ) :=
  if h.session_active = false then (h, none)
  else if o.recognized = false then (h, none)
  else stepActive h o

/-- process_person as a state transformer. -/
def processPerson (h : AudioHandler) (o : Obs) : AudioHandler :=
  (processPersonAux h o).1

/-- start_session. -/
def startSession (h : AudioHandler) : AudioHandler :=
  { h with
      session_active := true
      people := []
      global_cooldown_until := 0
      audio_queue := [] }

/-- end_session. -/
def endSession (h : AudioHandler) : AudioHandler :=
  { h with
      session_active := false
      people := []
      global_cooldown_until := 0
      audio_queue := [] }

/-- One sweep of _session_cleanup_loop at the given wall-clock time:
while a session is active, drop every record whose last_seen_time is
older than now - SESSION_TIMEOUT. -/
def sessionCleanupStep (h : AudioHandler) (now : ℤ) : AudioHandler :=
  if h.session_active then
    { h with
        people := h.people.filter (fun kv =>
          decide (now - SESSION_TIMEOUT ≤ kv.2.last_seen_time)) }
  else h

/-- One iteration of the _process_audio_queue worker loop in which the
queue was inspected: now is the time of the cooldown check, res the
outcome of the audio callback (caught by the try block), and after the
time read when the global cooldown is re-armed.  Returns the consumed
text, if any. -/
def processQueueStep (h : AudioHandler) (now after : ℤ) (res : Except String Unit) :
    AudioHandler × Option String :=
  match h.audio_queue with
  | [] => (h, none)
  | item :: rest =>
    if now < h.global_cooldown_until then (h, none)
    else
      match res with
      | Except.ok _ =>
        ({ h with
            audio_queue := rest
            global_cooldown_until := after + AUDIO_COOLDOWN_GLOBAL }, some item.1)
      | Except.error _ =>
        ({ h with
            audio_queue := rest
            global_cooldown_until := after + AUDIO_COOLDOWN_GLOBAL }, some item.1)

/-- One observed iteration of the playback worker: its two clock reads
and the outcome of the speech callback. -/
structure WorkerTick where
  now : ℤ
  after : ℤ
  res : Except String Unit

/-- A run of the playback worker over a sequence of iterations,
collecting each consumed text with the time its playback started. -/
def workerRun (h : AudioHandler) : List WorkerTick → AudioHandler × List (String × ℤ)
  | [] => (h, [])
  | tk :: rest =>
    let s := processQueueStep h tk.now tk.after tk.res
    let t := workerRun s.1 rest
    (t.1, (match s.2 with
           | some x => [(x, tk.now)]
           | none => []) ++ t.2)

/-- The clock reads of a worker run are monotone: each iteration starts
no earlier than the previous one ended, and ends no earlier than it
started. -/
def wellTimedB : ℤ → List WorkerTick → Bool
  | _, [] => true
  | t, tk :: rest =>
    decide (t ≤ tk.now) && decide (tk.now ≤ tk.after) && wellTimedB tk.after rest

/-- The external operations on the engine, each tagged with the clock
values it observes. -/
inductive Op where
  | start
  | stop
  | observe (o : Obs)
  | cleanup (now : ℤ)
  | worker (now after : ℤ) (res : Except String Unit)

/-- Apply one external operation. -/
def applyOp (h : AudioHandler) : Op → AudioHandler
  | Op.start => startSession h
  | Op.stop => endSession h
  | Op.observe o => processPerson h o
  | Op.cleanup now => sessionCleanupStep h now
  | Op.worker now after res => (processQueueStep h now after res).1

/-- Apply a sequence of external operations. -/
def runOps (h : AudioHandler) (ops : List Op) : AudioHandler :=
  ops.foldl applyOp h

/-- Apply a sequence of process_person calls. -/
def runObs (h : AudioHandler) (trace : List Obs) : AudioHandler :=
  trace.foldl processPerson h

/-- True when this process_person call enqueues the MARKED-to-IGNORED
announcement for the given person id: the call is for that id, the id
is registered in state MARKED, and the call extends the queue by
exactly that announcement. -/
def stepFiresIgnoredFor (h : AudioHandler) (o : Obs) (pid : String) : Bool :=
  (o.pid == pid) &&
  (match lookupP h.people pid with
   | some r =>
     (r.state == PersonState.MARKED) &&
     decide ((processPerson h o).audio_queue = h.audio_queue ++ [(ignoredMessage r.name, o.now)])
   | none => false)

/-- How many calls of a process_person trace enqueue the
MARKED-to-IGNORED announcement for the given person id. -/
def countIgnoredFires (h : AudioHandler) (pid : String) : List Obs → Nat
  | [] => 0
  | o :: rest =>
    (if stepFiresIgnoredFor h o pid then 1 else 0) +
      countIgnoredFires (processPerson h o) pid rest

/-- Progress order of the state machine. -/
def rank : PersonState → Nat
  | PersonState.NEW => 0
  | PersonState.MARKING => 1
  | PersonState.MARKED => 2
  | PersonState.IGNORED => 3

/-- A qualifying observation of person P at time t, as used in the
concrete scenarios below. -/
def obsP (mk : Bool) (t : ℤ) : Obs :=
  { pid := "P", name := "Pat", recognized := true, marked := mk, now := t }

/-- A qualifying observation of person S1 at time t. -/
def obsA (mk : Bool) (t : ℤ) : Obs :=
  { pid := "S1", name := "Alice", recognized := true, marked := mk, now := t }

/-- A session in which person P is marked and announced as already
marked, then evicted by the reaper after a 380 s absence, and finally
runs through the whole state machine a second time.  No start_session
or end_session occurs after the initial start. -/
def evictionScenario : List Op :=
  [Op.start,
   Op.observe (obsP true 0),
   Op.observe (obsP true 10),
   Op.observe (obsP true 20),
   Op.cleanup 400,
   Op.observe (obsP true 400),
   Op.observe (obsP true 410),
   Op.observe (obsP true 420)]

/-- A session in which Alice reaches state MARKED through the two
announcement-producing transitions. -/
def greetingScenario : List Op :=
  [Op.start, Op.observe (obsA false 0), Op.observe (obsA true 10)]

/-- A handler whose queue holds one pending announcement. -/
def pendingHandler : AudioHandler :=
  { session_active := true
    global_cooldown_until := 0
    people := []
    audio_queue := [("Marking attendance", 0)] }

/-- An active handler that has registered Alice as NEW. -/
def aliceHandler : AudioHandler :=
  { session_active := true
    global_cooldown_until := 0
    people := [("S1", freshRecord "S1" "Alice" 0)]
    audio_queue := [] }

/-- A record for Pat already in state IGNORED with the announcement
flag set. -/
def ignoredPat : PersonRecord :=
  { freshRecord "P" "Pat" 0 with
      state := PersonState.IGNORED
      has_triggered_ignored_audio := true }

/-- An active handler holding ignoredPat. -/
def ignoredPatHandler : AudioHandler :=
  { session_active := true
    global_cooldown_until := 0
    people := [("P", ignoredPat)]
    audio_queue := [] }

/-- A record for Pat in state MARKED, flag clear, lock expired. -/
def markedPat : PersonRecord :=
  { freshRecord "P" "Pat" 0 with state := PersonState.MARKED }

/-- An active handler holding markedPat. -/
def markedPatHandler : AudioHandler :=
  { session_active := true
    global_cooldown_until := 0
    people := [("P", markedPat)]
    audio_queue := [] }

/-- A handler with two pending announcements. -/
def twoItemHandler : AudioHandler :=
  { session_active := true
    global_cooldown_until := 0
    people := []
    audio_queue := [("first", 0), ("second", 0)] }

/-- Two worker iterations five seconds apart, both with a succeeding
backend. -/
def twoTicks : List WorkerTick :=
  [{ now := 0, after := 1, res := Except.ok () },
   { now := 5, after := 6, res := Except.ok () }]

/-- Record-level invariant: the once-per-session flag implies the
IGNORED state. -/
def recInvB (r : PersonRecord) : Bool :=
  !r.has_triggered_ignored_audio || (r.state == PersonState.IGNORED)

/-- Handler-level invariant: every registered record satisfies
recInvB. -/
def handlerInvB (h : AudioHandler) : Bool :=
  h.people.all (fun kv => recInvB kv.2)

/-! ### Helper lemmas on the association list -/

theorem lookupP_setP_self (ps : List (String × PersonRecord)) (pid : String) (r : PersonRecord) :
    lookupP (setP ps pid r) pid = some r := by
  induction ps with
  | nil => simp [setP, lookupP]
  | cons kv rest ih =>
    by_cases hk : kv.1 = pid
    · simp [setP, hk, lookupP]
    · simp [setP, hk, lookupP, ih]

theorem lookupP_setP_ne (ps : List (String × PersonRecord)) (pid q : String) (r : PersonRecord)
    (hne : pid ≠ q) : lookupP (setP ps pid r) q = lookupP ps q := by
  induction ps with
  | nil => simp [setP, lookupP, hne]
  | cons kv rest ih =>
    by_cases hk : kv.1 = pid
    · simp [setP, hk, lookupP, hne, ih]
    · simp [setP, hk, lookupP, ih]

theorem lookupP_mem (ps : List (String × PersonRecord)) (pid : String) (r : PersonRecord)
    (hl : lookupP ps pid = some r) : (pid, r) ∈ ps := by
  induction ps with
  | nil => simp [lookupP] at hl
  | cons kv rest ih =>
    by_cases hk : kv.1 = pid
    · simp [lookupP, hk] at hl
      subst hl
      subst hk
      exact List.mem_cons_self _ _
    · simp [lookupP, hk] at hl
      exact List.mem_cons_of_mem _ (ih hl)

/-! ### Basic facts about the transition and trigger functions -/

theorem triggerAudio_state (p : PersonRecord) (prev : PersonState) (now : ℤ) :
    (triggerAudioForTransition p prev now).1.state = p.state := by
  unfold triggerAudioForTransition
  rcases transitionMessage prev p.state p.name with _ | text
  · rfl
  · by_cases hs : p.state = PersonState.IGNORED
    · by_cases hf : p.has_triggered_ignored_audio <;> simp [hs, hf]
    · simp [hs]

theorem triggerAudio_last_seen (p : PersonRecord) (prev : PersonState) (now : ℤ) :
    (triggerAudioForTransition p prev now).1.last_seen_time = p.last_seen_time := by
  unfold triggerAudioForTransition
  rcases transitionMessage prev p.state p.name with _ | text
  · rfl
  · by_cases hs : p.state = PersonState.IGNORED
    · by_cases hf : p.has_triggered_ignored_audio <;> simp [hs, hf]
    · simp [hs]

theorem triggerAudio_name (p : PersonRecord) (prev : PersonState) (now : ℤ) :
    (triggerAudioForTransition p prev now).1.name = p.name := by
  unfold triggerAudioForTransition
  rcases transitionMessage prev p.state p.name with _ | text
  · rfl
  · by_cases hs : p.state = PersonState.IGNORED
    · by_cases hf : p.has_triggered_ignored_audio <;> simp [hs, hf]
    · simp [hs]

theorem nextState_rank (s : PersonState) (m re : Bool) :
    rank s ≤ rank (nextState s m re) := by
  cases s <;> cases m <;> cases re <;> simp [nextState, rank]

theorem rank_ignored (s : PersonState) (hs : 3 ≤ rank s) : s = PersonState.IGNORED := by
  cases s <;> simp [rank] at hs ⊢

theorem nextState_IGNORED (m re : Bool) :
    nextState PersonState.IGNORED m re = PersonState.IGNORED := rfl

/-! ### Step characterization lemmas for process_person -/

theorem processPerson_inactive (h : AudioHandler) (o : Obs) (ha : h.session_active = false) :
    processPerson h o = h := by
  unfold processPerson processPersonAux
  simp [ha]

theorem processPerson_unrecognized (h : AudioHandler) (o : Obs) (hr : o.recognized = false) :
    processPerson h o = h := by
  unfold processPerson processPersonAux
  rcases hb : h.session_active <;> simp [hr, hb]

/-- On an active session with a recognized face, the registry after the
call is always a single-point update of the registry before it. -/
theorem processPerson_people_setP (h : AudioHandler) (o : Obs)
    (ha : h.session_active = true) (hr : o.recognized = true) :
    ∃ x, (processPerson h o).people = setP h.people o.pid x := by
  unfold processPerson processPersonAux stepActive stepUnlocked
  simp only [ha, hr, Bool.true_eq_false, if_false]
  split
  · exact ⟨_, rfl⟩
  · split
    · exact ⟨_, rfl⟩
    · split
      · exact ⟨_, rfl⟩
      · exact ⟨_, rfl⟩

theorem processPerson_other (h : AudioHandler) (o : Obs) (pid : String) (hne : o.pid ≠ pid) :
    lookupP (processPerson h o).people pid = lookupP h.people pid := by
  cases ha : h.session_active with
  | false => rw [processPerson_inactive h o ha]
  | true =>
    cases hr : o.recognized with
    | false => rw [processPerson_unrecognized h o hr]
    | true =>
      obtain ⟨x, hx⟩ := processPerson_people_setP h o ha hr
      rw [hx, lookupP_setP_ne _ _ _ _ hne]

theorem processPerson_locked (h : AudioHandler) (o : Obs) (r : PersonRecord)
    (ha : h.session_active = true) (hr : o.recognized = true)
    (hl : lookupP h.people o.pid = some r) (hlock : o.now < r.audio_lock_until) :
    processPersonAux h o =
      ({ h with people := setP h.people o.pid { r with last_seen_time := o.now } }, none) := by
  unfold processPersonAux stepActive
  simp only [ha, hr, observedRecord, hl]
  simp [hlock]

theorem processPerson_unlocked (h : AudioHandler) (o : Obs) (r : PersonRecord)
    (ha : h.session_active = true) (hr : o.recognized = true)
    (hl : lookupP h.people o.pid = some r) (hnl : ¬ o.now < r.audio_lock_until) :
    processPersonAux h o =
      stepUnlocked h o { r with last_seen_time := o.now }
        (decide (REAPPEAR_THRESHOLD < o.now - r.last_seen_time)) := by
  unfold processPersonAux stepActive
  simp only [ha, hr, observedRecord, hl]
  simp [hnl]

theorem processPerson_fresh (h : AudioHandler) (o : Obs)
    (ha : h.session_active = true) (hr : o.recognized = true)
    (hl : lookupP h.people o.pid = none) (hnow : 0 ≤ o.now) :
    processPersonAux h o = stepUnlocked h o (freshRecord o.pid o.name o.now) false := by
  unfold processPersonAux stepActive
  simp only [ha, hr, observedRecord, hl]
  have h1 : ¬ o.now < (freshRecord o.pid o.name o.now).audio_lock_until := by
    simp [freshRecord]
    exact hnow
  have h2 : (REAPPEAR_THRESHOLD < o.now - (freshRecord o.pid o.name o.now).last_seen_time) = False := by
    simp [freshRecord, REAPPEAR_THRESHOLD]
  simp only [h2, decide_False]
  have h3 : ({ freshRecord o.pid o.name o.now with last_seen_time := o.now } : PersonRecord)
      = freshRecord o.pid o.name o.now := rfl
  simp [freshRecord] at h1 ⊢
  simp [h1]

theorem stepUnlocked_nochange (h : AudioHandler) (o : Obs) (r1 : PersonRecord) (reapp : Bool)
    (hs : nextState r1.state o.marked reapp = r1.state) :
    stepUnlocked h o r1 reapp = ({ h with people := setP h.people o.pid r1 }, none) := by
  unfold stepUnlocked applyStateTransitions
  simp [hs]

theorem stepUnlocked_NEW (h : AudioHandler) (o : Obs) (r1 : PersonRecord) (reapp : Bool)
    (hs : r1.state = PersonState.NEW) :
    stepUnlocked h o r1 reapp =
      ({ h with
          people := setP h.people o.pid
            { r1 with
                state := PersonState.MARKING
                audio_lock_until := o.now + AUDIO_COOLDOWN_PER_PERSON }
          audio_queue := h.audio_queue ++ [("Marking attendance", o.now)] },
       some ("Marking attendance", o.now)) := by
  unfold stepUnlocked applyStateTransitions triggerAudioForTransition transitionMessage
  simp [hs, nextState]

theorem stepUnlocked_MARKING_marked (h : AudioHandler) (o : Obs) (r1 : PersonRecord) (reapp : Bool)
    (hs : r1.state = PersonState.MARKING) (hm : o.marked = true) :
    stepUnlocked h o r1 reapp =
      ({ h with
          people := setP h.people o.pid
            { r1 with
                state := PersonState.MARKED
                audio_lock_until := o.now + AUDIO_COOLDOWN_PER_PERSON }
          audio_queue := h.audio_queue ++ [("Greetings " ++ r1.name, o.now)] },
       some ("Greetings " ++ r1.name, o.now)) := by
  unfold stepUnlocked applyStateTransitions triggerAudioForTransition transitionMessage
  simp [hs, hm, nextState]

theorem stepUnlocked_MARKED_reapp_fresh (h : AudioHandler) (o : Obs) (r1 : PersonRecord)
    (hs : r1.state = PersonState.MARKED) (hf : r1.has_triggered_ignored_audio = false) :
    stepUnlocked h o r1 true =
      ({ h with
          people := setP h.people o.pid
            { r1 with
                state := PersonState.IGNORED
                has_triggered_ignored_audio := true
                audio_lock_until := o.now + AUDIO_COOLDOWN_PER_PERSON }
          audio_queue := h.audio_queue ++ [(ignoredMessage r1.name, o.now)] },
       some (ignoredMessage r1.name, o.now)) := by
  unfold stepUnlocked applyStateTransitions triggerAudioForTransition transitionMessage
  simp [hs, hf, nextState, ignoredMessage]

theorem stepUnlocked_MARKED_reapp_flagged (h : AudioHandler) (o : Obs) (r1 : PersonRecord)
    (hs : r1.state = PersonState.MARKED) (hf : r1.has_triggered_ignored_audio = true) :
    stepUnlocked h o r1 true =
      ({ h with people := setP h.people o.pid { r1 with state := PersonState.IGNORED } },
       none) := by
  unfold stepUnlocked applyStateTransitions triggerAudioForTransition transitionMessage
  simp [hs, hf, nextState]

/-- After the lock gate, the observed record is stored back with its
state advanced by the transition table and its liveness fields kept. -/
theorem stepUnlocked_lookup (h : AudioHandler) (o : Obs) (r1 : PersonRecord) (reapp : Bool) :
    ∃ r2, lookupP (stepUnlocked h o r1 reapp).1.people o.pid = some r2 ∧
      r2.state = nextState r1.state o.marked reapp ∧
      r2.last_seen_time = r1.last_seen_time ∧
      r2.name = r1.name := by
  simp only [stepUnlocked]
  by_cases hch : (applyStateTransitions r1 o.marked reapp).state = r1.state
  · rw [if_pos hch]
    exact ⟨_, lookupP_setP_self _ _ _, by simp [applyStateTransitions],
      by simp [applyStateTransitions], by simp [applyStateTransitions]⟩
  · rw [if_neg hch]
    rcases htr : triggerAudioForTransition (applyStateTransitions r1 o.marked reapp) r1.state o.now
      with ⟨r3, msg⟩
    have h1 : (triggerAudioForTransition (applyStateTransitions r1 o.marked reapp) r1.state o.now).1
        = r3 := by rw [htr]
    have hst := triggerAudio_state (applyStateTransitions r1 o.marked reapp) r1.state o.now
    have hls := triggerAudio_last_seen (applyStateTransitions r1 o.marked reapp) r1.state o.now
    have hnm := triggerAudio_name (applyStateTransitions r1 o.marked reapp) r1.state o.now
    rw [h1] at hst hls hnm
    refine ⟨r3, ?_, ?_, ?_, ?_⟩
    · cases msg <;> simp [htr, lookupP_setP_self]
    · rw [hst]; simp [applyStateTransitions]
    · rw [hls]; simp [applyStateTransitions]
    · rw [hnm]; simp [applyStateTransitions]

/-! ### Claim theorems -/

/-- Claim C3: on an active session with a recognized face and a
registered record, last_seen_time is set to now unconditionally;
if now is before the per-person lock the call changes nothing but that
field (no transition, nothing enqueued, all other state identical); and
otherwise the state moves by the transition table with is_reappearance
computed from the last_seen_time value before the update. -/
theorem claim3_lock_gate_frame (h : AudioHandler) (o : Obs) (r : PersonRecord)
    (ha : h.session_active = true) (hr : o.recognized = true)
    (hl : lookupP h.people o.pid = some r) :
    (∃ r2, lookupP (processPerson h o).people o.pid = some r2 ∧ r2.last_seen_time = o.now) ∧
    (o.now < r.audio_lock_until →
      processPerson h o
        = { h with people := setP h.people o.pid { r with last_seen_time := o.now } }) ∧
    (¬ o.now < r.audio_lock_until →
      ∃ r2, lookupP (processPerson h o).people o.pid = some r2 ∧
        r2.state = nextState r.state o.marked
          (decide (REAPPEAR_THRESHOLD < o.now - r.last_seen_time))) := by
  by_cases hlock : o.now < r.audio_lock_until
  · have heq := processPerson_locked h o r ha hr hl hlock
    have hp : processPerson h o
        = { h with people := setP h.people o.pid { r with last_seen_time := o.now } } := by
      unfold processPerson
      rw [heq]
    refine ⟨⟨{ r with last_seen_time := o.now }, ?_, rfl⟩, fun _ => hp, fun hc => absurd hlock hc⟩
    rw [hp]
    exact lookupP_setP_self _ _ _
  · have heq := processPerson_unlocked h o r ha hr hl hlock
    have hp : processPerson h o
        = (stepUnlocked h o { r with last_seen_time := o.now }
            (decide (REAPPEAR_THRESHOLD < o.now - r.last_seen_time))).1 := by
      unfold processPerson
      rw [heq]
    obtain ⟨r2, hl2, hs2, hseen2, _⟩ := stepUnlocked_lookup h o { r with last_seen_time := o.now }
      (decide (REAPPEAR_THRESHOLD < o.now - r.last_seen_time))
    rw [← hp] at hl2
    refine ⟨⟨r2, hl2, by simpa using hseen2⟩, fun hc => absurd hc hlock, fun _ => ⟨r2, hl2, ?_⟩⟩
    simpa using hs2

/-- Claim C3 witness: a person under lock at observation time keeps all
state but last_seen_time, and nothing is enqueued. -/
theorem claim3_witness :
    processPerson
        { session_active := true
          global_cooldown_until := 0
          people := [("P", { freshRecord "P" "Pat" 0 with audio_lock_until := 5 })]
          audio_queue := [] }
        (obsP true 3)
      = { session_active := true
          global_cooldown_until := 0
          people := setP [("P", { freshRecord "P" "Pat" 0 with audio_lock_until := 5 })] "P"
            { { freshRecord "P" "Pat" 0 with audio_lock_until := 5 } with last_seen_time := 3 }
          audio_queue := [] } :=
  (claim3_lock_gate_frame
    { session_active := true
      global_cooldown_until := 0
      people := [("P", { freshRecord "P" "Pat" 0 with audio_lock_until := 5 })]
      audio_queue := [] }
    (obsP true 3)
    { freshRecord "P" "Pat" 0 with audio_lock_until := 5 }
    (by decide) (by decide) (by decide)).2.1 (by decide)

/-- Claim C5 counterexample: the greeting actually enqueued on the
MARKING-to-MARKED transition is "Greetings Alice"; the text claimed by
the spec, "Greetings, Alice" (with a comma), differs from it. -/
theorem claim5_counterexample :
    (runOps initialHandler greetingScenario).audio_queue
      = [("Marking attendance", 0), ("Greetings Alice", 10)] ∧
    ("Greetings Alice" : String) ≠ "Greetings, Alice" := by
  constructor
  · decide
  · decide

/-- Claim C5 (amended): (NEW, MARKING) enqueues "Marking attendance";
(MARKING, MARKED) enqueues "Greetings " followed by the display name
(no comma); (MARKED, IGNORED) enqueues the already-marked text; a call
whose transition leaves the state unchanged enqueues nothing; and the
message table holds no key besides those three transitions. -/
theorem claim5_amended_announcement_texts (h : AudioHandler) (o : Obs) (r : PersonRecord)
    (ha : h.session_active = true) (hr : o.recognized = true)
    (hl : lookupP h.people o.pid = some r)
    (hnl : ¬ o.now < r.audio_lock_until)
    (hflag : r.has_triggered_ignored_audio = false) :
    (r.state = PersonState.NEW →
      (processPerson h o).audio_queue = h.audio_queue ++ [("Marking attendance", o.now)]) ∧
    (r.state = PersonState.MARKING → o.marked = true →
      (processPerson h o).audio_queue = h.audio_queue ++ [("Greetings " ++ r.name, o.now)]) ∧
    (r.state = PersonState.MARKED →
      decide (REAPPEAR_THRESHOLD < o.now - r.last_seen_time) = true →
      (processPerson h o).audio_queue = h.audio_queue ++ [(ignoredMessage r.name, o.now)]) ∧
    (nextState r.state o.marked (decide (REAPPEAR_THRESHOLD < o.now - r.last_seen_time)) = r.state →
      (processPerson h o).audio_queue = h.audio_queue) ∧
    (∀ prev next nm, transitionMessage prev next nm ≠ none →
      (prev = PersonState.NEW ∧ next = PersonState.MARKING) ∨
      (prev = PersonState.MARKING ∧ next = PersonState.MARKED) ∨
      (prev = PersonState.MARKED ∧ next = PersonState.IGNORED)) := by
  have hp : processPerson h o
      = (stepUnlocked h o { r with last_seen_time := o.now }
          (decide (REAPPEAR_THRESHOLD < o.now - r.last_seen_time))).1 := by
    unfold processPerson
    rw [processPerson_unlocked h o r ha hr hl hnl]
  refine ⟨?_, ?_, ?_, ?_, ?_⟩
  · intro hs
    rw [hp, stepUnlocked_NEW h o _ _ (by simpa using hs)]
  · intro hs hm
    rw [hp, stepUnlocked_MARKING_marked h o _ _ (by simpa using hs) hm]
  · intro hs hre
    rw [hp, hre, stepUnlocked_MARKED_reapp_fresh h o _ (by simpa using hs) (by simpa using hflag)]
  · intro hs
    rw [hp, stepUnlocked_nochange h o _ _ (by simpa using hs)]
  · intro prev next nm hmsg
    cases prev <;> cases next <;> simp [transitionMessage] at hmsg ⊢

/-- Claim C5 witness: a first observation of a NEW person enqueues
exactly "Marking attendance". -/
theorem claim5_witness :
    (processPerson
        { session_active := true
          global_cooldown_until := 0
          people := [("S1", freshRecord "S1" "Alice" 0)]
          audio_queue := [] }
        (obsA false 3)).audio_queue
      = [] ++ [("Marking attendance", 3)] :=
  (claim5_amended_announcement_texts
    { session_active := true
      global_cooldown_until := 0
      people := [("S1", freshRecord "S1" "Alice" 0)]
      audio_queue := [] }
    (obsA false 3) (freshRecord "S1" "Alice" 0)
    (by decide) (by decide) (by decide) (by decide) (by decide)).1 (by decide)

/-- Claim C6: a speech-backend error is absorbed at the worker
boundary: the step result is identical to the success case, and when an
item is due, it is consumed (not requeued) and the global cooldown is
re-armed to the post-playback time plus AUDIO_COOLDOWN_GLOBAL. -/
theorem claim6_backend_failure_consumed (h : AudioHandler) (now after : ℤ) (e : String) :
    processQueueStep h now after (Except.error e) = processQueueStep h now after (Except.ok ()) ∧
    (∀ item rest, h.audio_queue = item :: rest → ¬ now < h.global_cooldown_until →
      (processQueueStep h now after (Except.error e)).1.audio_queue = rest ∧
      (processQueueStep h now after (Except.error e)).1.global_cooldown_until
        = after + AUDIO_COOLDOWN_GLOBAL ∧
      (processQueueStep h now after (Except.error e)).2 = some item.1) := by
  constructor
  · unfold processQueueStep
    cases hq : h.audio_queue with
    | nil => rfl
    | cons item rest => by_cases hc : now < h.global_cooldown_until <;> simp [hc]
  · intro item rest hq hc
    unfold processQueueStep
    rw [hq]
    simp [hc]

/-- Claim C6 witness: with a due item at the head, an erroring backend
still consumes the item and re-arms the cooldown. -/
theorem claim6_witness :
    (processQueueStep pendingHandler 5 6 (Except.error "boom")).1.audio_queue = [] ∧
    (processQueueStep pendingHandler 5 6 (Except.error "boom")).1.global_cooldown_until
      = 6 + AUDIO_COOLDOWN_GLOBAL ∧
    (processQueueStep pendingHandler 5 6 (Except.error "boom")).2
      = some (("Marking attendance", (0 : ℤ))).1 :=
  (claim6_backend_failure_consumed pendingHandler 5 6 "boom").2 ("Marking attendance", 0) []
    (by decide) (by decide)

/-- Claim C7: with the session inactive or the face unrecognized,
process_person leaves the whole engine state unchanged. -/
theorem claim7_invalid_observation_noop (h : AudioHandler) (o : Obs)
    (hcond : h.session_active = false ∨ o.recognized = false) :
    processPerson h o = h := by
  rcases hcond with hc | hc
  · exact processPerson_inactive h o hc
  · exact processPerson_unrecognized h o hc

/-- Claim C7 witness: an observation against an inactive handler is a
no-op. -/
theorem claim7_witness : processPerson initialHandler (obsP true 3) = initialHandler :=
  claim7_invalid_observation_noop initialHandler (obsP true 3) (Or.inl (by decide))

/-- Claim C8: start_session after any sequence of prior operations
leaves the registry empty, the queue empty, the global cooldown reset
to zero, and the session active. -/
theorem claim8_start_session_resets (ops : List Op) :
    (runOps initialHandler (ops ++ [Op.start])).people = [] ∧
    (runOps initialHandler (ops ++ [Op.start])).audio_queue = [] ∧
    (runOps initialHandler (ops ++ [Op.start])).global_cooldown_until = 0 ∧
    (runOps initialHandler (ops ++ [Op.start])).session_active = true := by
  have hstep : runOps initialHandler (ops ++ [Op.start])
      = startSession (runOps initialHandler ops) := by
    unfold runOps
    rw [List.foldl_append]
    rfl
  rw [hstep]
  simp [startSession]

theorem processPerson_locked_fst (h : AudioHandler) (o : Obs) (r : PersonRecord)
    (ha : h.session_active = true) (hr : o.recognized = true)
    (hl : lookupP h.people o.pid = some r) (hlock : o.now < r.audio_lock_until) :
    processPerson h o
      = { h with people := setP h.people o.pid { r with last_seen_time := o.now } } := by
  unfold processPerson
  rw [processPerson_locked h o r ha hr hl hlock]

theorem processPerson_unlocked_fst (h : AudioHandler) (o : Obs) (r : PersonRecord)
    (ha : h.session_active = true) (hr : o.recognized = true)
    (hl : lookupP h.people o.pid = some r) (hnl : ¬ o.now < r.audio_lock_until) :
    processPerson h o
      = (stepUnlocked h o { r with last_seen_time := o.now }
          (decide (REAPPEAR_THRESHOLD < o.now - r.last_seen_time))).1 := by
  unfold processPerson
  rw [processPerson_unlocked h o r ha hr hl hnl]

theorem processPerson_fresh_fst (h : AudioHandler) (o : Obs)
    (ha : h.session_active = true) (hr : o.recognized = true)
    (hl : lookupP h.people o.pid = none) (hnow : 0 ≤ o.now) :
    processPerson h o = (stepUnlocked h o (freshRecord o.pid o.name o.now) false).1 := by
  unfold processPerson
  rw [processPerson_fresh h o ha hr hl hnow]

/-- One process_person call never moves a registered record backward in
the progress order. -/
theorem processPerson_rank_step (h : AudioHandler) (o : Obs) (pid : String) (r : PersonRecord)
    (hl : lookupP h.people pid = some r) :
    ∃ r2, lookupP (processPerson h o).people pid = some r2 ∧ rank r.state ≤ rank r2.state := by
  cases ha : h.session_active with
  | false => rw [processPerson_inactive h o ha]; exact ⟨r, hl, le_refl _⟩
  | true =>
    cases hr : o.recognized with
    | false => rw [processPerson_unrecognized h o hr]; exact ⟨r, hl, le_refl _⟩
    | true =>
      by_cases hpid : o.pid = pid
      · subst hpid
        by_cases hlock : o.now < r.audio_lock_until
        · rw [processPerson_locked_fst h o r ha hr hl hlock]
          exact ⟨{ r with last_seen_time := o.now }, lookupP_setP_self _ _ _, le_refl _⟩
        · rw [processPerson_unlocked_fst h o r ha hr hl hlock]
          obtain ⟨r2, hl2, hs2, _, _⟩ := stepUnlocked_lookup h o { r with last_seen_time := o.now }
            (decide (REAPPEAR_THRESHOLD < o.now - r.last_seen_time))
          refine ⟨r2, hl2, ?_⟩
          rw [hs2]
          exact nextState_rank r.state o.marked _
      · rw [processPerson_other h o pid hpid]
        exact ⟨r, hl, le_refl _⟩

theorem runObs_rank (h : AudioHandler) (pid : String) (r : PersonRecord) (trace : List Obs)
    (hl : lookupP h.people pid = some r) :
    ∃ r2, lookupP (runObs h trace).people pid = some r2 ∧ rank r.state ≤ rank r2.state := by
  induction trace generalizing h r with
  | nil => exact ⟨r, hl, le_refl _⟩
  | cons o rest ih =>
    obtain ⟨r1, hl1, hr1⟩ := processPerson_rank_step h o pid r hl
    obtain ⟨r2, hl2, hr2⟩ := ih (processPerson h o) r1 hl1
    exact ⟨r2, hl2, le_trans hr1 hr2⟩

/-- Claim C2: over any sequence of process_person calls, a registered
record's state only moves forward along the order
NEW, MARKING, MARKED, IGNORED, and once IGNORED it stays IGNORED. -/
theorem claim2_monotone_absorbing (h : AudioHandler) (pid : String) (r : PersonRecord)
    (trace : List Obs) (hl : lookupP h.people pid = some r) :
    ∃ r2, lookupP (runObs h trace).people pid = some r2 ∧
      rank r.state ≤ rank r2.state ∧
      (r.state = PersonState.IGNORED → r2.state = PersonState.IGNORED) := by
  obtain ⟨r2, hl2, hr2⟩ := runObs_rank h pid r trace hl
  refine ⟨r2, hl2, hr2, fun hig => ?_⟩
  refine rank_ignored _ ?_
  rw [hig] at hr2
  simpa [rank] using hr2

/-- Claim C2 witness: an IGNORED record stays IGNORED across a further
qualifying observation. -/
theorem claim2_witness :
    ∃ r2, lookupP (runObs ignoredPatHandler [obsP true 10]).people "P" = some r2 ∧
      rank ignoredPat.state ≤ rank r2.state ∧
      (ignoredPat.state = PersonState.IGNORED → r2.state = PersonState.IGNORED) :=
  claim2_monotone_absorbing ignoredPatHandler "P" ignoredPat [obsP true 10] (by decide)

/-- Claim C10: one process_person call either leaves the queue and the
observed person's audio lock as they were, or appends exactly one item
timestamped now and simultaneously sets that person's lock to
now + AUDIO_COOLDOWN_PER_PERSON. -/
theorem claim10_single_enqueue_lock (h : AudioHandler) (o : Obs) (hnow : 0 ≤ o.now) :
    ((processPerson h o).audio_queue = h.audio_queue ∧
      (lookupP (processPerson h o).people o.pid).map (fun r => r.audio_lock_until)
        = (lookupP h.people o.pid).map (fun r => r.audio_lock_until)) ∨
    (∃ text, (processPerson h o).audio_queue = h.audio_queue ++ [(text, o.now)] ∧
      (lookupP (processPerson h o).people o.pid).map (fun r => r.audio_lock_until)
        = some (o.now + AUDIO_COOLDOWN_PER_PERSON)) := by
  cases ha : h.session_active with
  | false => left; rw [processPerson_inactive h o ha]; exact ⟨rfl, rfl⟩
  | true =>
    cases hr : o.recognized with
    | false => left; rw [processPerson_unrecognized h o hr]; exact ⟨rfl, rfl⟩
    | true =>
      cases hl : lookupP h.people o.pid with
      | none =>
        right
        rw [processPerson_fresh_fst h o ha hr hl hnow,
          stepUnlocked_NEW h o _ false rfl]
        refine ⟨"Marking attendance", rfl, ?_⟩
        rw [lookupP_setP_self]
        rfl
      | some r =>
        by_cases hlock : o.now < r.audio_lock_until
        · left
          rw [processPerson_locked_fst h o r ha hr hl hlock]
          refine ⟨rfl, ?_⟩
          rw [lookupP_setP_self]
          rfl
        · rw [processPerson_unlocked_fst h o r ha hr hl hlock]
          cases hstate : r.state with
          | NEW =>
            right
            rw [stepUnlocked_NEW h o _ _ (by simpa using hstate)]
            refine ⟨"Marking attendance", rfl, ?_⟩
            rw [lookupP_setP_self]
            rfl
          | MARKING =>
            cases hm : o.marked with
            | true =>
              right
              rw [stepUnlocked_MARKING_marked h o _ _ (by simpa using hstate) hm]
              refine ⟨"Greetings " ++ r.name, rfl, ?_⟩
              rw [lookupP_setP_self]
              rfl
            | false =>
              left
              rw [stepUnlocked_nochange h o _ _ (by simp [nextState, hstate, hm])]
              refine ⟨rfl, ?_⟩
              rw [lookupP_setP_self]
              rfl
          | MARKED =>
            cases hre : decide (REAPPEAR_THRESHOLD < o.now - r.last_seen_time) with
            | false =>
              left
              rw [stepUnlocked_nochange h o _ _ (by simp [nextState, hstate])]
              refine ⟨rfl, ?_⟩
              rw [lookupP_setP_self]
              rfl
            | true =>
              cases hf : r.has_triggered_ignored_audio with
              | false =>
                right
                rw [stepUnlocked_MARKED_reapp_fresh h o _ (by simpa using hstate) (by simpa using hf)]
                refine ⟨ignoredMessage r.name, rfl, ?_⟩
                rw [lookupP_setP_self]
                rfl
              | true =>
                left
                rw [stepUnlocked_MARKED_reapp_flagged h o _ (by simpa using hstate) (by simpa using hf)]
                refine ⟨rfl, ?_⟩
                rw [lookupP_setP_self]
                rfl
          | IGNORED =>
            left
            rw [stepUnlocked_nochange h o _ _ (by simp [nextState, hstate])]
            refine ⟨rfl, ?_⟩
            rw [lookupP_setP_self]
            rfl

/-- Claim C10 witness: the first observation of Alice appends one item
and sets her lock to 3 + AUDIO_COOLDOWN_PER_PERSON. -/
theorem claim10_witness :
    ((processPerson aliceHandler (obsA false 3)).audio_queue = aliceHandler.audio_queue ∧
      (lookupP (processPerson aliceHandler (obsA false 3)).people (obsA false 3).pid).map
          (fun r => r.audio_lock_until)
        = (lookupP aliceHandler.people (obsA false 3).pid).map (fun r => r.audio_lock_until)) ∨
    (∃ text,
      (processPerson aliceHandler (obsA false 3)).audio_queue
        = aliceHandler.audio_queue ++ [(text, (obsA false 3).now)] ∧
      (lookupP (processPerson aliceHandler (obsA false 3)).people (obsA false 3).pid).map
          (fun r => r.audio_lock_until)
        = some ((obsA false 3).now + AUDIO_COOLDOWN_PER_PERSON)) :=
  claim10_single_enqueue_lock aliceHandler (obsA false 3) (by decide)

/-! ### The flag-implies-IGNORED invariant -/

theorem handlerInv_iff (h : AudioHandler) :
    handlerInvB h = true ↔ ∀ kv ∈ h.people, recInvB kv.2 = true := by
  simp [handlerInvB, List.all_eq_true]

theorem mem_setP (ps : List (String × PersonRecord)) (pid : String) (r : PersonRecord)
    (kv : String × PersonRecord) (hm : kv ∈ setP ps pid r) : kv ∈ ps ∨ kv = (pid, r) := by
  induction ps with
  | nil => simp [setP] at hm; right; exact hm
  | cons hd rest ih =>
    by_cases hk : hd.1 = pid
    · simp only [setP, if_pos hk] at hm
      rcases List.mem_cons.1 hm with heq | hin
      · right; exact heq
      · left; exact List.mem_cons_of_mem _ hin
    · simp only [setP, if_neg hk] at hm
      rcases List.mem_cons.1 hm with heq | hin
      · left; rw [heq]; exact List.mem_cons_self _ _
      · rcases ih hin with hin2 | heq2
        · left; exact List.mem_cons_of_mem _ hin2
        · right; exact heq2

theorem triggerAudio_inv (p : PersonRecord) (prev : PersonState) (now : ℤ)
    (hp : recInvB p = true) : recInvB (triggerAudioForTransition p prev now).1 = true := by
  unfold triggerAudioForTransition
  rcases transitionMessage prev p.state p.name with _ | text
  · exact hp
  · by_cases hs : p.state = PersonState.IGNORED
    · by_cases hf : p.has_triggered_ignored_audio <;> simp [hs, hf, recInvB]
    · simp only [hs, if_false, if_neg hs]
      simpa [recInvB] using hp

theorem applyStateTransitions_inv (r1 : PersonRecord) (m re : Bool)
    (hinv1 : recInvB r1 = true) : recInvB (applyStateTransitions r1 m re) = true := by
  cases hf : r1.has_triggered_ignored_audio with
  | false => simp [recInvB, applyStateTransitions, hf]
  | true =>
    have hst : r1.state = PersonState.IGNORED := by
      rcases hs : r1.state <;> simp [recInvB, hf, hs] at hinv1 ⊢
    simp [recInvB, applyStateTransitions, hf, hst, nextState]

theorem stepUnlocked_stored_inv (h : AudioHandler) (o : Obs) (r1 : PersonRecord) (reapp : Bool)
    (hinv1 : recInvB r1 = true) :
    ∃ x, (stepUnlocked h o r1 reapp).1.people = setP h.people o.pid x ∧ recInvB x = true := by
  have hinv2 := applyStateTransitions_inv r1 o.marked reapp hinv1
  simp only [stepUnlocked]
  split
  · exact ⟨_, rfl, hinv2⟩
  · rcases htr : triggerAudioForTransition (applyStateTransitions r1 o.marked reapp) r1.state o.now
      with ⟨r3, msg⟩
    have hr3 : recInvB r3 = true := by
      have := triggerAudio_inv (applyStateTransitions r1 o.marked reapp) r1.state o.now hinv2
      rw [htr] at this
      exact this
    cases msg <;> exact ⟨r3, rfl, hr3⟩

theorem processPerson_stored_inv (h : AudioHandler) (o : Obs)
    (ha : h.session_active = true) (hr : o.recognized = true)
    (hinv : handlerInvB h = true) :
    ∃ x, (processPerson h o).people = setP h.people o.pid x ∧ recInvB x = true := by
  have hinv0 : recInvB (observedRecord h o) = true := by
    unfold observedRecord
    cases hl : lookupP h.people o.pid with
    | none => simp [freshRecord, recInvB]
    | some r => exact (handlerInv_iff h).1 hinv (o.pid, r) (lookupP_mem _ _ _ hl)
  have hinv1 : recInvB { observedRecord h o with last_seen_time := o.now } = true := by
    simpa [recInvB] using hinv0
  unfold processPerson processPersonAux stepActive
  simp only [ha, hr, Bool.true_eq_false, if_false]
  split
  · exact ⟨_, rfl, hinv1⟩
  · exact stepUnlocked_stored_inv h o _ _ hinv1

theorem processPerson_inv (h : AudioHandler) (o : Obs) (hinv : handlerInvB h = true) :
    handlerInvB (processPerson h o) = true := by
  cases ha : h.session_active with
  | false => rw [processPerson_inactive h o ha]; exact hinv
  | true =>
    cases hr : o.recognized with
    | false => rw [processPerson_unrecognized h o hr]; exact hinv
    | true =>
      obtain ⟨x, hx, hxinv⟩ := processPerson_stored_inv h o ha hr hinv
      rw [handlerInv_iff] at hinv ⊢
      rw [hx]
      intro kv hkv
      rcases mem_setP _ _ _ _ hkv with hin | heq
      · exact hinv kv hin
      · rw [heq]; exact hxinv

theorem processQueueStep_people (h : AudioHandler) (now after : ℤ) (res : Except String Unit) :
    (processQueueStep h now after res).1.people = h.people := by
  unfold processQueueStep
  cases h.audio_queue with
  | nil => rfl
  | cons item rest =>
    by_cases hc : now < h.global_cooldown_until
    · simp [hc]
    · cases res <;> simp [hc]

theorem applyOp_inv (h : AudioHandler) (op : Op) (hinv : handlerInvB h = true) :
    handlerInvB (applyOp h op) = true := by
  cases op with
  | start => simp [applyOp, startSession, handlerInvB]
  | stop => simp [applyOp, endSession, handlerInvB]
  | observe o => exact processPerson_inv h o hinv
  | cleanup now =>
    simp only [applyOp, sessionCleanupStep]
    split
    · rw [handlerInv_iff] at hinv ⊢
      intro kv hkv
      exact hinv kv (List.mem_of_mem_filter hkv)
    · exact hinv
  | worker now after res =>
    have hp := processQueueStep_people h now after res
    unfold applyOp handlerInvB
    rw [hp]
    exact hinv

/-- Claim C9: the handler invariant "has_triggered_ignored_audio implies
state IGNORED" holds initially and is preserved by every operation;
consequently a MARKED record that fires the reappearance transition
still has the flag clear, so the early-return guard in
_trigger_audio_for_transition is not taken and the announcement is
enqueued. -/
theorem claim9_flag_invariant_guard_unreachable (h : AudioHandler) :
    handlerInvB initialHandler = true ∧
    (∀ op, handlerInvB h = true → handlerInvB (applyOp h op) = true) ∧
    (∀ (o : Obs) (r : PersonRecord), handlerInvB h = true →
      h.session_active = true → o.recognized = true →
      lookupP h.people o.pid = some r → r.state = PersonState.MARKED →
      ¬ o.now < r.audio_lock_until →
      decide (REAPPEAR_THRESHOLD < o.now - r.last_seen_time) = true →
      (processPerson h o).audio_queue = h.audio_queue ++ [(ignoredMessage r.name, o.now)]) := by
  refine ⟨by simp [handlerInvB, initialHandler], fun op hinv => applyOp_inv h op hinv, ?_⟩
  intro o r hinv ha hr hl hst hlock hre
  have hf : r.has_triggered_ignored_audio = false := by
    have hrec := (handlerInv_iff h).1 hinv (o.pid, r) (lookupP_mem _ _ _ hl)
    cases hfb : r.has_triggered_ignored_audio with
    | false => rfl
    | true => simp [recInvB, hfb, hst] at hrec
  rw [processPerson_unlocked_fst h o r ha hr hl hlock, hre,
    stepUnlocked_MARKED_reapp_fresh h o _ (by simpa using hst) (by simpa using hf)]

/-- Claim C9 witness: a MARKED record with the flag clear fires the
reappearance transition and the already-marked announcement is
enqueued. -/
theorem claim9_witness :
    (processPerson markedPatHandler (obsP true 10)).audio_queue
      = markedPatHandler.audio_queue ++ [(ignoredMessage markedPat.name, (obsP true 10).now)] :=
  (claim9_flag_invariant_guard_unreachable markedPatHandler).2.2 (obsP true 10) markedPat
    (by decide) (by decide) (by decide) (by decide) (by decide) (by decide) (by decide)

/-! ### Claim C1: once-per-lifetime of the IGNORED announcement -/

theorem countIgnoredFires_zero (h : AudioHandler) (pid : String) (r : PersonRecord)
    (trace : List Obs) (hl : lookupP h.people pid = some r)
    (hig : r.state = PersonState.IGNORED) :
    countIgnoredFires h pid trace = 0 := by
  induction trace generalizing h r with
  | nil => rfl
  | cons o rest ih =>
    have hfire : stepFiresIgnoredFor h o pid = false := by
      unfold stepFiresIgnoredFor
      rw [hl]
      simp [hig]
    obtain ⟨r2, hl2, hr2⟩ := processPerson_rank_step h o pid r hl
    have hig2 : r2.state = PersonState.IGNORED := by
      refine rank_ignored _ ?_
      rw [hig] at hr2
      simpa [rank] using hr2
    simp only [countIgnoredFires, hfire, Bool.false_eq_true, if_false, Nat.zero_add]
    exact ih (processPerson h o) r2 hl2 hig2

theorem stepFires_ignored_after (h : AudioHandler) (o : Obs) (pid : String)
    (hfire : stepFiresIgnoredFor h o pid = true) :
    ∃ r2, lookupP (processPerson h o).people pid = some r2 ∧
      r2.state = PersonState.IGNORED := by
  unfold stepFiresIgnoredFor at hfire
  rcases hl : lookupP h.people pid with _ | r
  · rw [hl] at hfire
    simp at hfire
  · rw [hl] at hfire
    simp only [Bool.and_eq_true, beq_iff_eq, decide_eq_true_eq] at hfire
    obtain ⟨hpid, hst, hqueue⟩ := hfire
    subst hpid
    cases ha : h.session_active with
    | false =>
      rw [processPerson_inactive h o ha] at hqueue
      simp at hqueue
    | true =>
      cases hr : o.recognized with
      | false =>
        rw [processPerson_unrecognized h o hr] at hqueue
        simp at hqueue
      | true =>
        by_cases hlock : o.now < r.audio_lock_until
        · rw [processPerson_locked_fst h o r ha hr hl hlock] at hqueue
          simp at hqueue
        · rw [processPerson_unlocked_fst h o r ha hr hl hlock] at hqueue ⊢
          cases hre : decide (REAPPEAR_THRESHOLD < o.now - r.last_seen_time) with
          | false =>
            rw [hre, stepUnlocked_nochange h o _ _ (by simp [nextState, hst])] at hqueue
            simp at hqueue
          | true =>
            cases hf : r.has_triggered_ignored_audio with
            | true =>
              rw [hre, stepUnlocked_MARKED_reapp_flagged h o _ (by simpa using hst)
                (by simpa using hf)] at hqueue
              simp at hqueue
            | false =>
              rw [stepUnlocked_MARKED_reapp_fresh h o _ (by simpa using hst)
                (by simpa using hf)]
              exact ⟨_, lookupP_setP_self _ _ _, rfl⟩

/-- Claim C1 (amended): over any sequence of process_person calls with
no reaper eviction in between, the MARKED-to-IGNORED announcement is
enqueued at most once for a given person id; the original claim fails
when the reaper evicts the record, see the counterexample. -/
theorem claim1_amended_ignored_once (h : AudioHandler) (pid : String) (trace : List Obs) :
    countIgnoredFires h pid trace ≤ 1 := by
  induction trace generalizing h with
  | nil => simp [countIgnoredFires]
  | cons o rest ih =>
    simp only [countIgnoredFires]
    cases hfire : stepFiresIgnoredFor h o pid with
    | false => simpa using ih (processPerson h o)
    | true =>
      obtain ⟨r2, hl2, hig2⟩ := stepFires_ignored_after h o pid hfire
      have hzero := countIgnoredFires_zero (processPerson h o) pid r2 rest hl2 hig2
      simp [hzero]

/-- Claim C1 counterexample: in a single session (one start_session and
never another session operation), Pat is announced as already marked at
t = 20, evicted by the reaper sweep at t = 400 after a 380 s absence,
and announced as already marked a second time at t = 420; the queue
ends holding the MARKED-to-IGNORED text twice. -/
theorem claim1_counterexample :
    (runOps initialHandler evictionScenario).audio_queue
      = [("Marking attendance", 0), ("Greetings Pat", 10), (ignoredMessage "Pat", 20),
         ("Marking attendance", 400), ("Greetings Pat", 410), (ignoredMessage "Pat", 420)] ∧
    ((runOps initialHandler evictionScenario).audio_queue.filter
      (fun it => it.1 == ignoredMessage "Pat")).length = 2 := by
  constructor
  · decide
  · decide

/-! ### Claim C4: the playback worker -/

theorem processQueueStep_empty (g : AudioHandler) (now after : ℤ) (res : Except String Unit)
    (hq : g.audio_queue = []) : processQueueStep g now after res = (g, none) := by
  unfold processQueueStep
  rw [hq]

theorem processQueueStep_wait (g : AudioHandler) (now after : ℤ) (res : Except String Unit)
    (item : String × ℤ) (rest : List (String × ℤ))
    (hq : g.audio_queue = item :: rest) (hc : now < g.global_cooldown_until) :
    processQueueStep g now after res = (g, none) := by
  unfold processQueueStep
  rw [hq]
  simp [hc]

theorem processQueueStep_pop (g : AudioHandler) (now after : ℤ) (res : Except String Unit)
    (item : String × ℤ) (rest : List (String × ℤ))
    (hq : g.audio_queue = item :: rest) (hc : ¬ now < g.global_cooldown_until) :
    processQueueStep g now after res
      = ({ g with
            audio_queue := rest
            global_cooldown_until := after + AUDIO_COOLDOWN_GLOBAL }, some item.1) := by
  unfold processQueueStep
  rw [hq]
  cases res <;> simp [hc]

/-- Texts played over a worker run form a front segment, in order, of
the queue it started with. -/
theorem workerRun_fifo (g : AudioHandler) (ticks : List WorkerTick) :
    ∃ k, (workerRun g ticks).2.map (fun p => p.1)
      = (g.audio_queue.map (fun p => p.1)).take k := by
  induction ticks generalizing g with
  | nil => exact ⟨0, by simp [workerRun]⟩
  | cons tk rest ih =>
    rcases hq : g.audio_queue with _ | ⟨item, qrest⟩
    · have hstep := processQueueStep_empty g tk.now tk.after tk.res hq
      obtain ⟨k, hk⟩ := ih g
      exact ⟨k, by simp [workerRun, hstep, hk, hq]⟩
    · by_cases hready : tk.now < g.global_cooldown_until
      · have hstep := processQueueStep_wait g tk.now tk.after tk.res item qrest hq hready
        obtain ⟨k, hk⟩ := ih g
        exact ⟨k, by simp [workerRun, hstep, hk, hq]⟩
      · have hstep := processQueueStep_pop g tk.now tk.after tk.res item qrest hq hready
        obtain ⟨k, hk⟩ := ih { g with
          audio_queue := qrest
          global_cooldown_until := tk.after + AUDIO_COOLDOWN_GLOBAL }
        refine ⟨k + 1, ?_⟩
        have heq : (workerRun g (tk :: rest)).2
            = (item.1, tk.now) :: (workerRun { g with
                audio_queue := qrest
                global_cooldown_until := tk.after + AUDIO_COOLDOWN_GLOBAL } rest).2 := by
          simp [workerRun, hstep]
        rw [heq]
        simp [hk]

/-- Consecutive playback start times over a well-timed worker run are
at least AUDIO_COOLDOWN_GLOBAL apart, and the first one respects the
initial cooldown. -/
theorem workerRun_gap (g : AudioHandler) (t0 : ℤ) (ticks : List WorkerTick)
    (hwt : wellTimedB t0 ticks = true) :
    List.Chain' (fun a b => a.2 + AUDIO_COOLDOWN_GLOBAL ≤ b.2) (workerRun g ticks).2 ∧
    (∀ p, (workerRun g ticks).2.head? = some p → g.global_cooldown_until ≤ p.2) := by
  induction ticks generalizing g t0 with
  | nil =>
    constructor
    · simp [workerRun]
    · intro p hp
      simp [workerRun] at hp
  | cons tk rest ih =>
    have hwt2 : wellTimedB tk.after rest = true := by
      simp only [wellTimedB, Bool.and_eq_true] at hwt
      exact hwt.2
    have hna : tk.now ≤ tk.after := by
      simp only [wellTimedB, Bool.and_eq_true, decide_eq_true_eq] at hwt
      exact hwt.1.2
    rcases hq : g.audio_queue with _ | ⟨item, qrest⟩
    · have hstep := processQueueStep_empty g tk.now tk.after tk.res hq
      have heq : (workerRun g (tk :: rest)).2 = (workerRun g rest).2 := by
        simp [workerRun, hstep]
      rw [heq]
      exact ih g tk.after hwt2
    · by_cases hready : tk.now < g.global_cooldown_until
      · have hstep := processQueueStep_wait g tk.now tk.after tk.res item qrest hq hready
        have heq : (workerRun g (tk :: rest)).2 = (workerRun g rest).2 := by
          simp [workerRun, hstep]
        rw [heq]
        exact ih g tk.after hwt2
      · have hstep := processQueueStep_pop g tk.now tk.after tk.res item qrest hq hready
        have heq : (workerRun g (tk :: rest)).2
            = (item.1, tk.now) :: (workerRun { g with
                audio_queue := qrest
                global_cooldown_until := tk.after + AUDIO_COOLDOWN_GLOBAL } rest).2 := by
          simp [workerRun, hstep]
        obtain ⟨hchain, hhead⟩ := ih { g with
          audio_queue := qrest
          global_cooldown_until := tk.after + AUDIO_COOLDOWN_GLOBAL } tk.after hwt2
        constructor
        · rw [heq, List.chain'_cons']
          refine ⟨?_, hchain⟩
          intro b hb
          have hb2 := hhead b (Option.mem_def.1 hb)
          have hstepb : tk.now + AUDIO_COOLDOWN_GLOBAL ≤ tk.after + AUDIO_COOLDOWN_GLOBAL :=
            add_le_add_right hna _
          exact le_trans hstepb hb2
        · intro p hp
          rw [heq] at hp
          simp only [List.head?_cons, Option.some_inj] at hp
          rw [← hp]
          exact not_lt.1 hready

/-- Claim C4: the worker leaves the queue untouched while now is before
the global cooldown, pops exactly the head once the cooldown has
passed, plays texts as a front segment of the queue in FIFO order, and
starts consecutive playbacks no less than AUDIO_COOLDOWN_GLOBAL
apart. -/
theorem claim4_fifo_global_cooldown :
    (∀ (g : AudioHandler) (now after : ℤ) (res : Except String Unit) item rest,
      g.audio_queue = item :: rest → now < g.global_cooldown_until →
      processQueueStep g now after res = (g, none)) ∧
    (∀ (g : AudioHandler) (now after : ℤ) (res : Except String Unit) item rest,
      g.audio_queue = item :: rest → ¬ now < g.global_cooldown_until →
      processQueueStep g now after res
        = ({ g with
              audio_queue := rest
              global_cooldown_until := after + AUDIO_COOLDOWN_GLOBAL }, some item.1)) ∧
    (∀ (g : AudioHandler) (ticks : List WorkerTick),
      ∃ k, (workerRun g ticks).2.map (fun p => p.1)
        = (g.audio_queue.map (fun p => p.1)).take k) ∧
    (∀ (g : AudioHandler) (t0 : ℤ) (ticks : List WorkerTick),
      wellTimedB t0 ticks = true →
      List.Chain' (fun a b => a.2 + AUDIO_COOLDOWN_GLOBAL ≤ b.2) (workerRun g ticks).2) :=
  ⟨processQueueStep_wait, processQueueStep_pop, workerRun_fifo,
    fun g t0 ticks hwt => (workerRun_gap g t0 ticks hwt).1⟩

/-- Claim C4 witness: a two-item queue drained over two well-timed
iterations plays with starts two seconds apart. -/
theorem claim4_witness :
    List.Chain' (fun a b => a.2 + AUDIO_COOLDOWN_GLOBAL ≤ b.2)
      (workerRun twoItemHandler twoTicks).2 :=
  claim4_fifo_global_cooldown.2.2.2 twoItemHandler 0 twoTicks (by decide)

end AttendanceAudio
